import Mathlib

/-
Verification development for the inceptiondb Go client library.

Shallow embedding of the data-marshalling core:
  * models.go        : Index / CreateIndexRequest flatten codec
  * stream (JSONStream / Iterate) : JSON-Lines stream reader and typed iterator
  * client.go        : encodeJSONPayload / encodeJSONObject / encodeQueryRequest
  * errors.go        : parseErrorResponse

Conventions of the embedding:
  * JSON values are modelled by the inductive `Json`; Go's `map[string]any`
    is modelled by an association list `JMap` whose operations `mapSet`,
    `mapGet`, `mapDel` mirror Go map assignment, lookup with type assertion,
    and `delete`.  Go maps are unordered; the association list keeps an
    insertion order as a representational artifact, so all key-level claims
    are stated order-insensitively (via membership / lookup) and value-level
    round trips compose marshal and unmarshal at the `Json` level, which is
    exactly what serialising the map and re-parsing the bytes yields.
  * Byte strings (request bodies, response bodies) are modelled as
    `List Char`, one `Char` per byte.
  * Go `error` values in the stream layer are modelled by the inductive
    `GoError`; `errors.Is(err, x)` on the sentinel values involved is an
    identity comparison, modelled by decidable equality (no wrapped errors
    occur in this code path).
-/

namespace InceptionDB

/-! ## JSON values and map[string]any -/

inductive Json where
  | jnull
  | jbool (b : Bool)
  | jnum (n : Int)
  | jstr (s : String)
  | jarr (elems : List Json)
  | jobj (fields : List (String × Json))

/-- Model of Go `map[string]any` with `Json` values. -/
abbrev JMap := List (String × Json)

/-- Go map assignment `m[k] = v`: overwrite in place, or append a new key. -/
def mapSet (m : JMap) (k : String) (v : Json) : JMap :=
  match m with
  | [] => [(k, v)]
  | (k0, v0) :: rest => if k0 = k then (k, v) :: rest else (k0, v0) :: mapSet rest k v

/-- Go map lookup `m[k]`. -/
def mapGet (m : JMap) (k : String) : Option Json :=
  match m with
  | [] => none
  | (k0, v0) :: rest => if k0 = k then some v0 else mapGet rest k

/-- Go `delete(m, k)`. -/
def mapDel (m : JMap) (k : String) : JMap :=
  match m with
  | [] => []
  | (k0, v0) :: rest => if k0 = k then rest else (k0, v0) :: mapDel rest k

def keysOf (m : JMap) : List String := m.map Prod.fst

/-- Folding a field list into a map, as `json.Unmarshal` does when it fills a
`map[string]any` from a JSON object (later duplicate keys overwrite). -/
def rawObject (fields : List (String × Json)) : JMap :=
  fields.foldl (fun acc kv => mapSet acc kv.1 kv.2) []

/-! ## models.go : Index and CreateIndexRequest -/

/-- `Index` from models.go: fixed fields plus a dynamic options bag.
`Options = none` models a nil Go map, `some []` a non-nil empty map. -/
structure Index where
  name : String
  type : String
  options : Option JMap

/-- `Index.MarshalJSON`: build `m` with `m["name"]`, `m["type"]` (written
unconditionally), merge `Options` on top, and marshal the map.  The result is
the JSON object `json.Marshal(m)` serialises. -/
def Index.marshalJSON (i : Index) : Json :=
  let m := mapSet [] "name" (.jstr i.name)
  let m := mapSet m "type" (.jstr i.type)
  .jobj ((i.options.getD []).foldl (fun acc kv => mapSet acc kv.1 kv.2) m)

/-- `Index.UnmarshalJSON` applied to a parsed JSON value: unmarshal into a raw
`map[string]any` (only an object or `null` succeeds; `null` yields a nil map),
take `"name"`/`"type"` when they are strings, delete both keys, and keep the
rest as `Options`, or nil when nothing remains.  `i` is the receiver's prior
state (field assignments are skipped when the type assertion fails). -/
def Index.unmarshalJSON (i : Index) (data : Json) : Except Unit Index :=
  match data with
  | .jobj fields =>
      let raw := rawObject fields
      let name := match mapGet raw "name" with | some (.jstr v) => v | _ => i.name
      let typ := match mapGet raw "type" with | some (.jstr v) => v | _ => i.type
      let rest := mapDel (mapDel raw "name") "type"
      .ok { name := name, type := typ, options := if rest.isEmpty then none else some rest }
  | .jnull => .ok { name := i.name, type := i.type, options := none }
  | _ => .error ()

/-- `CreateIndexRequest` from models.go. -/
structure CreateIndexRequest where
  name : String
  type : String
  options : Option JMap

/-- `CreateIndexRequest.MarshalJSON`: like `Index.marshalJSON` but the fixed
fields are written only when non-empty. -/
def CreateIndexRequest.marshalJSON (r : CreateIndexRequest) : Json :=
  let m : JMap := []
  let m := if r.name ≠ "" then mapSet m "name" (.jstr r.name) else m
  let m := if r.type ≠ "" then mapSet m "type" (.jstr r.type) else m
  .jobj ((r.options.getD []).foldl (fun acc kv => mapSet acc kv.1 kv.2) m)

/-! ## stream: JSONStream, Close, Next, Iterate -/

/-- Go `error` values occurring in the stream layer.  `eof` is `io.EOF`,
`stopIteration` is `ErrStopIteration`; `decodeFailure`, `closeFailure` and
`callbackFailure` stand for arbitrary distinct errors produced by the JSON
decoder, by `resp.Body.Close()`, and by a user callback. -/
inductive GoError where
  | eof
  | stopIteration
  | nilStream
  | nilCallback
  | decodeFailure (msg : String)
  | closeFailure (msg : String)
  | callbackFailure (msg : String)
  deriving DecidableEq

/-- `JSONStream` wraps a streaming JSON Lines response.  `records` is the
sequence of outcomes the decoder will produce for `T`-typed destinations
(`Except.ok v` a successful decode, `Except.error e` a decode failure); an
exhausted list is `io.EOF`.  `closeErr` is what `resp.Body.Close()` returns,
and `releases` counts how many times the underlying body was closed. -/
structure JSONStream (T : Type) where
  records : List (Except GoError T)
  closeErr : Option GoError
  closed : Bool
  releases : Nat

/-- `(*JSONStream).Close` on a non-nil receiver: a no-op when already closed,
otherwise mark closed and release the body, returning its close error. -/
def JSONStream.close {T : Type} (s : JSONStream T) : JSONStream T × Option GoError :=
  if s.closed then (s, none)
  else ({ s with closed := true, releases := s.releases + 1 }, s.closeErr)

/-- `(*JSONStream).Close` including the nil-receiver guard. -/
def closeStream {T : Type} : Option (JSONStream T) → Option (JSONStream T) × Option GoError
  | none => (none, none)
  | some s => (some (s.close).1, (s.close).2)

/-- `(*JSONStream).Next` on a non-nil receiver: report `io.EOF` when closed;
otherwise decode one value, closing the stream on end of input and on any
decode error (the `Close` result inside `Next` is discarded). -/
def JSONStream.next {T : Type} (s : JSONStream T) : JSONStream T × Except GoError T :=
  if s.closed then (s, .error .eof)
  else
    match s.records with
    | [] => ((s.close).1, .error .eof)
    | r :: rest =>
      match r with
      | .ok v => ({ s with records := rest }, .ok v)
      | .error e =>
        if e = .eof then (({ s with records := rest } : JSONStream T).close.1, .error .eof)
        else (({ s with records := rest } : JSONStream T).close.1, .error e)

/-- `(*JSONStream).Next` including the nil-receiver guard. -/
def nextStream {T : Type} : Option (JSONStream T) → Option (JSONStream T) × Except GoError T
  | none => (none, .error .nilStream)
  | some s => (some (s.next).1, (s.next).2)

theorem next_ok_records_lt {T : Type} {s s' : JSONStream T} {v : T}
    (h : s.next = (s', .ok v)) : s'.records.length < s.records.length := by
  obtain ⟨recs, ce, closed, rel⟩ := s
  cases closed with
  | true => simp [JSONStream.next] at h
  | false =>
    cases recs with
    | nil =>
      simp [JSONStream.next, JSONStream.close] at h
    | cons r rest =>
      cases r with
      | ok w =>
        simp [JSONStream.next] at h
        obtain ⟨h1, _⟩ := h
        subst h1
        simp
      | error e =>
        by_cases he : e = GoError.eof <;>
          simp [JSONStream.next, JSONStream.close, he] at h

/-- The loop body of `Iterate`: callbacks are modelled as state transformers
`σ → T → σ × Option GoError` (the Go callback's closure state made explicit);
the loop returns the final stream, the final callback state, and `Iterate`'s
error result. -/
def iterateLoop {T σ : Type} (f : σ → T → σ × Option GoError)
    (s : JSONStream T) (acc : σ) : JSONStream T × σ × Option GoError :=
  match h : s.next with
  | (s', .error e) =>
    if e = .eof then (s', acc, none) else (s', acc, some e)
  | (s', .ok v) =>
    let p := f acc v
    match p.2 with
    | none => iterateLoop f s' p.1
    | some err =>
      if err = .stopIteration then
        match (s'.close).2 with
        | none => ((s'.close).1, p.1, none)
        | some ce =>
          if ce = .eof then ((s'.close).1, p.1, none)
          else ((s'.close).1, p.1, some ce)
      else ((s'.close).1, p.1, some err)
termination_by s.records.length
decreasing_by exact next_ok_records_lt h

/-- `Iterate[T]`: nil-stream and nil-callback guards, then the decode loop. -/
def iterate {T σ : Type} (s : Option (JSONStream T))
    (fn : Option (σ → T → σ × Option GoError)) (init : σ) :
    Option (JSONStream T) × σ × Option GoError :=
  match s with
  | none => (none, init, some .nilStream)
  | some st =>
    match fn with
    | none => (some st, init, some .nilCallback)
    | some f =>
      let r := iterateLoop f st init
      (some r.1, r.2.1, r.2.2)

/-! ## JSON serialisation (stdlib `json.Marshal` on our `Json` values)

String escaping is not modelled; none of the claims depend on it. -/

mutual

def renderJson : Json → List Char
  | .jnull => "null".toList
  | .jbool true => "true".toList
  | .jbool false => "false".toList
  | .jnum n => (toString n).toList
  | .jstr s => '"' :: s.toList ++ ['"']
  | .jarr elems => '[' :: renderElems elems ++ [']']
  | .jobj fields => '{' :: renderFields fields ++ ['}']

def renderElems : List Json → List Char
  | [] => []
  | [x] => renderJson x
  | x :: y :: rest => renderJson x ++ ',' :: renderElems (y :: rest)

def renderFields : List (String × Json) → List Char
  | [] => []
  | [(k, v)] => renderJson (.jstr k) ++ ':' :: renderJson v
  | (k, v) :: f :: rest =>
    renderJson (.jstr k) ++ ':' :: renderJson v ++ ',' :: renderFields (f :: rest)

end

/-! ## client.go : request body encoders -/

/-- The runtime shapes a Go `any` payload can take at the encoder entry
points.  `nilVal` is a nil interface value (an untyped `nil`, or a nil
interface-typed reference, for which `payload == nil` holds); `ptrTo none` is
a typed pointer that is nil at runtime (a non-nil interface, caught only by
reflection); `mapTo none` is a nil map.  `reader` is an `io.Reader`
identified by an opaque id. -/
inductive GoVal where
  | nilVal
  | reader (id : Nat)
  | bytes (data : List Char)
  | str (data : List Char)
  | rawMsg (data : List Char)
  | ptrTo (pointee : Option Json)
  | mapTo (m : Option JMap)
  | structured (j : Json)

/-- An `io.Reader` request body: either a passed-through reader or a byte
reader over concrete bytes. -/
inductive Body where
  | readerBody (id : Nat)
  | bytesBody (data : List Char)
  deriving DecidableEq

/-- The two bytes of the empty JSON object. -/
def emptyObjectBody : List Char := ['{', '}']

/-- `encodeJSONPayload`: `nil` (a nil interface value) yields no body; readers,
byte slices, strings and raw messages pass through; everything else goes to
`json.Marshal`, whose semantics on pointers, maps and structured values is
inlined in the last five cases (a runtime-nil pointer or map marshals to the
four bytes `null`).  `json.Marshal` errors (unsupported types) are outside the
model. -/
def encodeJSONPayload : GoVal → Option Body
  | .nilVal => none
  | .reader id => some (.readerBody id)
  | .bytes d => some (.bytesBody d)
  | .str d => some (.bytesBody d)
  | .rawMsg d => some (.bytesBody d)
  | .ptrTo none => some (.bytesBody "null".toList)
  | .ptrTo (some j) => some (.bytesBody (renderJson j))
  | .mapTo none => some (.bytesBody "null".toList)
  | .mapTo (some m) => some (.bytesBody (renderJson (.jobj m)))
  | .structured j => some (.bytesBody (renderJson j))

/-- Go `strings.TrimSpace` / `bytes.TrimSpace` on the ASCII whitespace that
can occur in these bodies. -/
def isSpaceByte (c : Char) : Bool := c = ' ' || c = '\t' || c = '\n' || c = '\r'

def trimSpace (l : List Char) : List Char :=
  ((l.dropWhile isSpaceByte).reverse.dropWhile isSpaceByte).reverse

/-- `encodeJSONObject`: `nil` and blank inputs normalise to `{}`; readers pass
through; raw messages recurse as byte slices; the default branch checks the
runtime value by reflection (nil map, nil pointer → `{}`; the
`reflect.Interface` arm of the Go switch is unreachable, since
`reflect.ValueOf` of a non-nil `any` never has interface kind) and otherwise
marshals.  The `json.RawMessage` case recurses in Go as
`encodeJSONObject([]byte(v))`; that call is inlined here (it is exactly the
byte-slice case). -/
def encodeJSONObject : GoVal → Body
  | .nilVal => .bytesBody emptyObjectBody
  | .reader id => .readerBody id
  | .bytes d => if trimSpace d = [] then .bytesBody emptyObjectBody else .bytesBody d
  | .str d => if trimSpace d = [] then .bytesBody emptyObjectBody else .bytesBody d
  | .rawMsg d => if trimSpace d = [] then .bytesBody emptyObjectBody else .bytesBody d
  | .ptrTo none => .bytesBody emptyObjectBody
  | .ptrTo (some j) => .bytesBody (renderJson j)
  | .mapTo none => .bytesBody emptyObjectBody
  | .mapTo (some m) => .bytesBody (renderJson (.jobj m))
  | .structured j => .bytesBody (renderJson j)

/-- `encodeQueryRequest`: `nil` and runtime-nil pointers yield `{}` directly,
everything else falls through to `encodeJSONObject`. -/
def encodeQueryRequest : GoVal → Body
  | .nilVal => .bytesBody emptyObjectBody
  | .ptrTo none => .bytesBody emptyObjectBody
  | v => encodeJSONObject v

/-! ## errors.go : parseErrorResponse -/

def maxErrorBody : Nat := 1 <<< 20

/-- `Error` from errors.go (status text rendering of `Error()` not modelled). -/
structure Error where
  StatusCode : Nat
  Message : List Char
  Description : List Char
  Body : List Char
  deriving DecidableEq

/-- Decoding one string field of the anonymous error struct: absent and
`null` leave the zero value, a string is taken, any other shape is an
unmarshal error. -/
def strField (m : JMap) (k : String) : Option String :=
  match mapGet m k with
  | none => some ""
  | some .jnull => some ""
  | some (.jstr s) => some s
  | some _ => none

/-- `json.Unmarshal(data, &payload)` for the anonymous struct
`{ Error { Message, Description string } }`, applied to an already-parsed
JSON value: `none` models an unmarshal error (type mismatch). -/
def decodeErrorPayload : Json → Option (String × String)
  | .jnull => some ("", "")
  | .jobj fields =>
    let raw := rawObject fields
    match mapGet raw "error" with
    | none => some ("", "")
    | some .jnull => some ("", "")
    | some (.jobj efields) =>
      let e := rawObject efields
      match strField e "message", strField e "description" with
      | some m, some d => some (m, d)
      | _, _ => none
    | some _ => none
  | _ => none

/-- `parseErrorResponse`: read at most `maxErrorBody` bytes of the response
body, try the structured error shape when the data is non-empty, and fall
back to the whitespace-trimmed raw text as the message.  `unmarshal` abstracts
the `json` syntax parser: it returns the parsed JSON value of the bytes, or
`none` when they are not valid JSON.  The `io.ReadAll` error branch (a
transport failure while reading) is outside the model. -/
def parseErrorResponse (statusCode : Nat) (respBody : List Char)
    (unmarshal : List Char → Option Json) : Error :=
  let data := respBody.take maxErrorBody
  if 0 < data.length then
    match unmarshal data with
    | some j =>
      match decodeErrorPayload j with
      | some (m, d) =>
        if m ≠ "" ∨ d ≠ "" then
          { StatusCode := statusCode, Message := m.toList, Description := d.toList, Body := data }
        else
          { StatusCode := statusCode, Message := trimSpace data, Description := [], Body := data }
      | none =>
        { StatusCode := statusCode, Message := trimSpace data, Description := [], Body := data }
    | none =>
      { StatusCode := statusCode, Message := trimSpace data, Description := [], Body := data }
  else
    { StatusCode := statusCode, Message := trimSpace data, Description := [], Body := data }

/-- The field list of a JSON object (empty for non-objects); used to state
key-level properties of the marshalled objects. -/
def objFields : Json → JMap
  | .jobj fields => fields
  | _ => []

/-! ## Helper lemmas -/

theorem iterateLoop_eq {T σ : Type} (f : σ → T → σ × Option GoError)
    (s : JSONStream T) (acc : σ) :
    iterateLoop f s acc =
      match s.next with
      | (s', .error e) => if e = .eof then (s', acc, none) else (s', acc, some e)
      | (s', .ok v) =>
        let p := f acc v
        match p.2 with
        | none => iterateLoop f s' p.1
        | some err =>
          if err = .stopIteration then
            match (s'.close).2 with
            | none => ((s'.close).1, p.1, none)
            | some ce =>
              if ce = .eof then ((s'.close).1, p.1, none)
              else ((s'.close).1, p.1, some ce)
          else ((s'.close).1, p.1, some err) := by
  rw [iterateLoop]
  split
  next s' e heq => rw [heq]
  next s' v heq => rw [heq]

theorem iterateLoop_all_ok {T σ : Type} (f : σ → T → σ) (ce : Option GoError) (rel : Nat) :
    ∀ (vs : List T) (init : σ),
      iterateLoop (fun a v => (f a v, none)) ⟨vs.map Except.ok, ce, false, rel⟩ init
        = (⟨[], ce, true, rel + 1⟩, vs.foldl f init, none) := by
  intro vs
  induction vs with
  | nil =>
    intro init
    rw [iterateLoop_eq]
    simp [JSONStream.next, JSONStream.close]
  | cons v rest ih =>
    intro init
    rw [iterateLoop_eq]
    simp [JSONStream.next]
    exact ih (f init v)

theorem iterateLoop_stop_step {T σ : Type} (f : σ → T → σ × Option GoError)
    (s s' : JSONStream T) (v : T) (acc : σ)
    (hn : s.next = (s', Except.ok v))
    (hf : (f acc v).2 = some GoError.stopIteration) :
    iterateLoop f s acc =
      ((s'.close).1, (f acc v).1,
        match (s'.close).2 with
        | none => none
        | some ce => if ce = GoError.eof then none else some ce) := by
  rw [iterateLoop_eq, hn]
  simp only [hf]
  simp only [reduceIte]
  cases hce : (s'.close).2 with
  | none => simp
  | some ce => by_cases h2 : ce = GoError.eof <;> simp [h2]

theorem iterateLoop_cberr_step {T σ : Type} (f : σ → T → σ × Option GoError)
    (s s' : JSONStream T) (v : T) (acc : σ) (e : GoError)
    (hn : s.next = (s', Except.ok v))
    (hf : (f acc v).2 = some e) (hne : e ≠ GoError.stopIteration) :
    iterateLoop f s acc = ((s'.close).1, (f acc v).1, some e) := by
  rw [iterateLoop_eq, hn]
  simp only [hf]
  simp [hne]

theorem next_snd_error_closed {T : Type} (s : JSONStream T) (e : GoError)
    (h : (s.next).2 = Except.error e) : (s.next).1.closed = true := by
  obtain ⟨recs, ce, closed, rel⟩ := s
  cases closed with
  | true => simp [JSONStream.next]
  | false =>
    cases recs with
    | nil => simp [JSONStream.next, JSONStream.close]
    | cons r rest =>
      cases r with
      | ok w => simp [JSONStream.next] at h
      | error e2 =>
        by_cases he : e2 = GoError.eof <;> simp [JSONStream.next, JSONStream.close, he]

theorem closed_next_eof {T : Type} (s : JSONStream T) (h : s.closed = true) :
    s.next = (s, Except.error GoError.eof) := by
  simp [JSONStream.next, h]

theorem close_closed_noop {T : Type} (s : JSONStream T) (h : s.closed = true) :
    s.close = (s, none) := by
  simp [JSONStream.close, h]

theorem close_fst_closed {T : Type} (s : JSONStream T) : ((s.close).1).closed = true := by
  by_cases h : s.closed <;> simp [JSONStream.close, h]

theorem close_releases_le {T : Type} (s : JSONStream T) :
    ((s.close).1).releases ≤ s.releases + 1 := by
  by_cases h : s.closed <;> simp [JSONStream.close, h]

theorem keysOf_nil : keysOf [] = [] := rfl

theorem keysOf_cons (k : String) (v : Json) (m : JMap) :
    keysOf ((k, v) :: m) = k :: keysOf m := rfl

theorem keysOf_append (a b : JMap) : keysOf (a ++ b) = keysOf a ++ keysOf b :=
  List.map_append _ a b

theorem mapSet_append (m : JMap) (k : String) (v : Json) (h : k ∉ keysOf m) :
    mapSet m k v = m ++ [(k, v)] := by
  induction m with
  | nil => rfl
  | cons kv rest ih =>
    obtain ⟨k0, v0⟩ := kv
    rw [keysOf_cons, List.mem_cons] at h
    push_neg at h
    have hk0 : ¬ k0 = k := fun hh => h.1 hh.symm
    simp only [mapSet, if_neg hk0]
    rw [ih h.2]
    simp

theorem fold_mapSet_append (opts : JMap) : ∀ (m : JMap),
    (∀ k ∈ keysOf opts, k ∉ keysOf m) → (keysOf opts).Nodup →
    opts.foldl (fun acc kv => mapSet acc kv.1 kv.2) m = m ++ opts := by
  induction opts with
  | nil => intro m _ _; simp
  | cons kv rest ih =>
    intro m hdisj hnd
    obtain ⟨k, v⟩ := kv
    rw [keysOf_cons] at hdisj hnd
    rw [List.nodup_cons] at hnd
    simp only [List.foldl_cons]
    rw [mapSet_append m k v (hdisj k (List.mem_cons_self _ _))]
    rw [ih (m ++ [(k, v)]) ?hd hnd.2]
    · simp
    case hd =>
      intro k2 hk2
      rw [keysOf_append, List.mem_append, keysOf_cons, keysOf_nil, List.mem_singleton]
      rintro (hin | heq)
      · exact hdisj k2 (List.mem_cons_of_mem _ hk2) hin
      · exact hnd.1 (heq ▸ hk2)

theorem rawObject_self (l : JMap) (h : (keysOf l).Nodup) : rawObject l = l := by
  unfold rawObject
  rw [fold_mapSet_append l [] (by simp [keysOf]) h]
  simp

theorem keysOf_mapSet (m : JMap) (k : String) (v : Json) (k2 : String) :
    k2 ∈ keysOf (mapSet m k v) ↔ k2 = k ∨ k2 ∈ keysOf m := by
  induction m with
  | nil => simp [mapSet, keysOf]
  | cons kv rest ih =>
    obtain ⟨k0, v0⟩ := kv
    simp only [mapSet]
    split
    next h =>
      subst h
      simp [keysOf_cons, List.mem_cons]
    next h =>
      simp [keysOf_cons, List.mem_cons] at ih ⊢
      rw [ih]
      tauto

theorem keysOf_fold_mapSet (opts : JMap) : ∀ (m : JMap) (k2 : String),
    k2 ∈ keysOf (opts.foldl (fun acc kv => mapSet acc kv.1 kv.2) m) ↔
      k2 ∈ keysOf m ∨ k2 ∈ keysOf opts := by
  induction opts with
  | nil => intro m k2; simp [keysOf]
  | cons kv rest ih =>
    intro m k2
    obtain ⟨k, v⟩ := kv
    simp only [List.foldl_cons]
    rw [ih, keysOf_mapSet, keysOf_cons, List.mem_cons]
    tauto

theorem parse_body_eq (sc : Nat) (rb : List Char) (um : List Char → Option Json) :
    (parseErrorResponse sc rb um).Body = rb.take maxErrorBody := by
  simp only [parseErrorResponse]
  repeat' split
  all_goals rfl

theorem trimSpace_length_le (l : List Char) : (trimSpace l).length ≤ l.length := by
  unfold trimSpace
  rw [List.length_reverse]
  calc ((l.dropWhile isSpaceByte).reverse.dropWhile isSpaceByte).length
      ≤ (l.dropWhile isSpaceByte).reverse.length := (List.dropWhile_sublist _).length_le
    _ = (l.dropWhile isSpaceByte).length := List.length_reverse _
    _ ≤ l.length := (List.dropWhile_sublist _).length_le

theorem parse_fallback_unparsable (sc : Nat) (rb : List Char) (um : List Char → Option Json)
    (hum : um (rb.take maxErrorBody) = none) :
    parseErrorResponse sc rb um =
      ⟨sc, trimSpace (rb.take maxErrorBody), [], rb.take maxErrorBody⟩ := by
  simp only [parseErrorResponse, hum]
  split <;> rfl

theorem parse_structured (sc : Nat) (rb : List Char) (um : List Char → Option Json)
    (j : Json) (m d : String)
    (hlen : 0 < (rb.take maxErrorBody).length)
    (hum : um (rb.take maxErrorBody) = some j)
    (hdec : decodeErrorPayload j = some (m, d))
    (hne : m ≠ "" ∨ d ≠ "") :
    parseErrorResponse sc rb um = ⟨sc, m.toList, d.toList, rb.take maxErrorBody⟩ := by
  simp only [parseErrorResponse, hum, hdec]
  rw [if_pos hlen, if_pos hne]

theorem parse_fallback_mismatch (sc : Nat) (rb : List Char) (um : List Char → Option Json)
    (j : Json)
    (hum : um (rb.take maxErrorBody) = some j)
    (hdec : decodeErrorPayload j = none) :
    parseErrorResponse sc rb um =
      ⟨sc, trimSpace (rb.take maxErrorBody), [], rb.take maxErrorBody⟩ := by
  simp only [parseErrorResponse, hum, hdec]
  split <;> rfl

theorem parse_fallback_emptyfields (sc : Nat) (rb : List Char) (um : List Char → Option Json)
    (j : Json)
    (hum : um (rb.take maxErrorBody) = some j)
    (hdec : decodeErrorPayload j = some ("", "")) :
    parseErrorResponse sc rb um =
      ⟨sc, trimSpace (rb.take maxErrorBody), [], rb.take maxErrorBody⟩ := by
  simp only [parseErrorResponse, hum, hdec]
  split <;> simp

/-! ## Claims -/

/-- C1: for every fresh JSON-Lines stream whose records all decode and every
callback that always returns success, `Iterate` invokes the callback once per
record in stream order (the final callback state is the left fold of the
records) and returns success at end-of-stream; in particular the two-record
stream collects `[1, 2]` with two invocations, in order. -/
theorem C1_iterate_in_order :
    (∀ (T σ : Type) (f : σ → T → σ) (ce : Option GoError) (rel : Nat)
        (vs : List T) (init : σ),
      (iterate (some ⟨vs.map Except.ok, ce, false, rel⟩)
          (some fun a v => (f a v, none)) init).2 = (vs.foldl f init, none)) ∧
    (iterate (some ⟨[Except.ok 1, Except.ok 2], none, false, 0⟩)
        (some fun (l : List Nat) (v : Nat) => (l ++ [v], none)) ([] : List Nat)).2
      = ([1, 2], none) := by
  constructor
  · intro T σ f ce rel vs init
    simp [iterate, iterateLoop_all_ok]
  · simp [iterate, iterateLoop_eq, JSONStream.next, JSONStream.close]

/-- C2: whenever the callback returns the stop sentinel after a successful
decode, `Iterate` closes the stream and returns success, except that a close
error other than `io.EOF` is propagated instead; whenever the callback
returns any other error, `Iterate` closes the stream, discards the close
error, and propagates the callback's error; on the concrete two-record stream
a stop after the first record gives one invocation, `[1]`, and success. -/
theorem C2_iterate_stop_sentinel :
    (∀ (T σ : Type) (f : σ → T → σ × Option GoError) (s s' : JSONStream T)
        (v : T) (acc : σ),
      s.next = (s', Except.ok v) → (f acc v).2 = some GoError.stopIteration →
      iterateLoop f s acc =
          ((s'.close).1, (f acc v).1,
            match (s'.close).2 with
            | none => none
            | some ce => if ce = GoError.eof then none else some ce) ∧
        ((s'.close).1).closed = true) ∧
    (∀ (T σ : Type) (f : σ → T → σ × Option GoError) (s s' : JSONStream T)
        (v : T) (acc : σ) (e : GoError),
      s.next = (s', Except.ok v) → (f acc v).2 = some e → e ≠ GoError.stopIteration →
      iterateLoop f s acc = ((s'.close).1, (f acc v).1, some e) ∧
        ((s'.close).1).closed = true) ∧
    iterate (some ⟨[Except.ok 1, Except.ok 2], none, false, 0⟩)
        (some fun (l : List Nat) (v : Nat) => (l ++ [v], some GoError.stopIteration))
        ([] : List Nat)
      = (some ⟨[Except.ok 2], none, true, 1⟩, [1], none) := by
  refine ⟨?_, ?_, ?_⟩
  · intro T σ f s s' v acc hn hf
    exact ⟨iterateLoop_stop_step f s s' v acc hn hf, close_fst_closed s'⟩
  · intro T σ f s s' v acc e hn hf hne
    exact ⟨iterateLoop_cberr_step f s s' v acc e hn hf hne, close_fst_closed s'⟩
  · simp [iterate, iterateLoop_eq, JSONStream.next, JSONStream.close]

/-- C2 witness: the stop branch applied to a concrete one-record stream. -/
theorem C2_iterate_stop_sentinel_witness :
    iterateLoop (fun (l : List Nat) (v : Nat) => (l ++ [v], some GoError.stopIteration))
        ⟨[Except.ok 5], none, false, 0⟩ []
      = (((⟨[], none, false, 0⟩ : JSONStream Nat).close).1, [5],
          match ((⟨[], none, false, 0⟩ : JSONStream Nat).close).2 with
          | none => none
          | some ce => if ce = GoError.eof then none else some ce) ∧
      ((((⟨[], none, false, 0⟩ : JSONStream Nat).close).1).closed = true) :=
  C2_iterate_stop_sentinel.1 Nat (List Nat)
    (fun l v => (l ++ [v], some GoError.stopIteration))
    ⟨[Except.ok 5], none, false, 0⟩ ⟨[], none, false, 0⟩ 5 [] rfl rfl

/-- C3: a closed stream session makes every `Next` report `io.EOF` without
decoding; any error outcome of `Next` (end of stream or decode error) leaves
the stream closed, so the following `Next` reports `io.EOF`; `Close` is a
no-op returning no error on a nil handle and on an already-closed stream, and
closing releases the underlying body at most once. -/
theorem C3_stream_closed_invariant :
    (∀ (T : Type) (s : JSONStream T), s.closed = true →
      s.next = (s, Except.error GoError.eof)) ∧
    (∀ (T : Type) (s s' : JSONStream T) (e : GoError),
      s.next = (s', Except.error e) →
      s'.closed = true ∧ s'.next = (s', Except.error GoError.eof)) ∧
    (∀ (T : Type), closeStream (none : Option (JSONStream T)) = (none, none)) ∧
    (∀ (T : Type) (s : JSONStream T), s.closed = true → s.close = (s, none)) ∧
    (∀ (T : Type) (s : JSONStream T),
      ((s.close).1).closed = true ∧ ((s.close).1).close = ((s.close).1, none) ∧
        ((s.close).1).releases ≤ s.releases + 1) := by
  refine ⟨?_, ?_, ?_, ?_, ?_⟩
  · intro T s h
    exact closed_next_eof s h
  · intro T s s' e h
    have h1 : (s.next).1 = s' := by rw [h]
    have h2 : (s.next).2 = Except.error e := by rw [h]
    have hc := next_snd_error_closed s e h2
    rw [h1] at hc
    exact ⟨hc, closed_next_eof s' hc⟩
  · intro T
    rfl
  · intro T s h
    exact close_closed_noop s h
  · intro T s
    exact ⟨close_fst_closed s, close_closed_noop _ (close_fst_closed s),
      close_releases_le s⟩

/-- C3 witness: a concrete closed stream reports `io.EOF` from `Next` and its
`Close` is a no-op. -/
theorem C3_stream_closed_invariant_witness :
    (⟨[Except.ok 7], none, true, 1⟩ : JSONStream Nat).next
        = (⟨[Except.ok 7], none, true, 1⟩, Except.error GoError.eof) ∧
      (⟨[Except.ok 7], none, true, 1⟩ : JSONStream Nat).close
        = (⟨[Except.ok 7], none, true, 1⟩, none) :=
  ⟨C3_stream_closed_invariant.1 Nat ⟨[Except.ok 7], none, true, 1⟩ rfl,
    C3_stream_closed_invariant.2.2.2.1 Nat ⟨[Except.ok 7], none, true, 1⟩ rfl⟩

/-- C4 counterexample: the optional-payload flavor does NOT treat a
runtime-nil typed pointer as absent — it marshals it to the JSON body
`null` instead of producing no body, because `encodeJSONPayload` only checks
`payload == nil` (a nil interface value) and has no reflection-based nil
check. -/
theorem C4_counterexample :
    encodeJSONPayload (GoVal.ptrTo none) ≠ none := by
  simp [encodeJSONPayload]

/-- C4 (amended): the object-body flavors (`encodeJSONObject`,
`encodeQueryRequest`) inspect the runtime value and emit `{}` for a
runtime-nil pointer and for a nil interface value; the optional-payload
flavor (`encodeJSONPayload`) treats only a nil interface value as absent
(no body) and marshals a runtime-nil typed pointer to the JSON body
`null`. -/
theorem C4_nil_runtime_checks :
    encodeJSONObject (GoVal.ptrTo none) = Body.bytesBody emptyObjectBody ∧
    encodeQueryRequest (GoVal.ptrTo none) = Body.bytesBody emptyObjectBody ∧
    encodeJSONObject GoVal.nilVal = Body.bytesBody emptyObjectBody ∧
    encodeQueryRequest GoVal.nilVal = Body.bytesBody emptyObjectBody ∧
    encodeJSONPayload GoVal.nilVal = none ∧
    encodeJSONPayload (GoVal.ptrTo none) = some (Body.bytesBody "null".toList) :=
  ⟨rfl, rfl, rfl, rfl, rfl, rfl⟩

/-- C5 counterexample: the encode→decode round trip does not recover an
`Index` whose options bag contains the reserved key `"name"`: the option
entry overwrites `m["name"]` during marshalling, so decoding yields
`name = "x"` and an empty bag instead of the original value. -/
theorem C5_counterexample :
    Index.unmarshalJSON ⟨"", "", none⟩
        (Index.marshalJSON ⟨"a", "t", some [("name", Json.jstr "x")]⟩)
      ≠ Except.ok ⟨"a", "t", some [("name", Json.jstr "x")]⟩ := by
  intro h
  have h2 := congrArg
    (fun r => match r with | Except.ok i => i.name | Except.error _ => "") h
  simp [Index.marshalJSON, Index.unmarshalJSON, rawObject, mapSet, mapGet, mapDel] at h2
  exact absurd h2 (by decide)

/-- C5 (amended): for every `Index` whose options bag has pairwise-distinct
keys and contains neither `"name"` nor `"type"`, marshalling and then
unmarshalling recovers the fixed fields and the options bag, and an original
bag that is absent or empty is decoded as absent (nil), not as an empty
dictionary.  The prior receiver state `i0` is irrelevant. -/
theorem C5_index_roundtrip (i0 : Index) (n t : String) (o : Option JMap)
    (hnd : (keysOf (o.getD [])).Nodup)
    (hname : "name" ∉ keysOf (o.getD []))
    (htype : "type" ∉ keysOf (o.getD [])) :
    Index.unmarshalJSON i0 (Index.marshalJSON ⟨n, t, o⟩) =
      Except.ok ⟨n, t, if (o.getD []).isEmpty then none else o⟩ := by
  cases o with
  | none => rfl
  | some l =>
    simp only [Option.getD_some] at hnd hname htype ⊢
    have hbase : mapSet (mapSet [] "name" (Json.jstr n)) "type" (Json.jstr t)
        = [("name", Json.jstr n), ("type", Json.jstr t)] := by
      simp [mapSet]
    have hmarshal : Index.marshalJSON ⟨n, t, some l⟩ =
        Json.jobj (("name", Json.jstr n) :: ("type", Json.jstr t) :: l) := by
      unfold Index.marshalJSON
      simp only [Option.getD_some, hbase]
      rw [fold_mapSet_append l _ ?hd hnd]
      · rfl
      case hd =>
        intro k hk
        simp only [keysOf_cons, keysOf_nil, List.mem_cons, List.not_mem_nil, or_false]
        rintro (rfl | rfl)
        · exact hname hk
        · exact htype hk
    rw [hmarshal]
    have hraw : rawObject (("name", Json.jstr n) :: ("type", Json.jstr t) :: l)
        = ("name", Json.jstr n) :: ("type", Json.jstr t) :: l := by
      apply rawObject_self
      rw [keysOf_cons, keysOf_cons, List.nodup_cons, List.nodup_cons]
      refine ⟨?_, htype, hnd⟩
      rw [List.mem_cons]
      rintro (h | h)
      · exact absurd h (by decide)
      · exact hname h
    simp only [Index.unmarshalJSON, hraw]
    simp [mapGet, mapDel]

/-- C5 witness: a concrete round trip through a one-entry options bag. -/
theorem C5_index_roundtrip_witness :
    Index.unmarshalJSON ⟨"", "", none⟩
        (Index.marshalJSON ⟨"idx", "map", some [("field", Json.jstr "x")]⟩)
      = Except.ok ⟨"idx", "map", some [("field", Json.jstr "x")]⟩ :=
  C5_index_roundtrip ⟨"", "", none⟩ "idx" "map" (some [("field", Json.jstr "x")])
    (by decide) (by decide) (by decide)

/-- C6 counterexample: `Index.MarshalJSON` writes the `"name"` key even when
the name is empty, so an empty fixed field does contribute a key to the
emitted object, contrary to the claim. -/
theorem C6_counterexample :
    "name" ∈ keysOf (objFields (Index.marshalJSON ⟨"", "", none⟩)) := by
  decide

/-- C6 (amended): the flatten encodings emit one JSON object whose top-level
keys are the union of the dynamic bag's keys and the fixed field names, where
`CreateIndexRequest.MarshalJSON` includes each fixed field only when
non-empty, while `Index.MarshalJSON` includes `"name"` and `"type"`
unconditionally, even when empty. -/
theorem C6_flatten_keys :
    (∀ (r : CreateIndexRequest) (k : String),
      k ∈ keysOf (objFields r.marshalJSON) ↔
        (k = "name" ∧ r.name ≠ "") ∨ (k = "type" ∧ r.type ≠ "") ∨
          k ∈ keysOf (r.options.getD [])) ∧
    (∀ (i : Index) (k : String),
      k ∈ keysOf (objFields i.marshalJSON) ↔
        k = "name" ∨ k = "type" ∨ k ∈ keysOf (i.options.getD [])) := by
  constructor
  · intro r k
    obtain ⟨n, t, o⟩ := r
    unfold CreateIndexRequest.marshalJSON
    by_cases hn : n = "" <;> by_cases ht : t = "" <;>
      simp [hn, ht, objFields, keysOf_fold_mapSet, keysOf_mapSet, keysOf_cons,
        keysOf_nil, mapSet] <;>
      tauto
  · intro i k
    obtain ⟨n, t, o⟩ := i
    simp [Index.marshalJSON, objFields, keysOf_fold_mapSet, keysOf_mapSet, keysOf_cons,
      keysOf_nil, mapSet]
    tauto

/-- C7: every absent input of the query/patch/remove flavor — nil, a
runtime-nil pointer (a nil interface value is the `nilVal` case), a nil map,
or a blank/whitespace-only string, byte slice or raw message — encodes to a
body of exactly the two bytes `{}`. -/
theorem C7_query_absent_empty_object :
    emptyObjectBody = ['{', '}'] ∧
    encodeQueryRequest GoVal.nilVal = Body.bytesBody emptyObjectBody ∧
    encodeQueryRequest (GoVal.ptrTo none) = Body.bytesBody emptyObjectBody ∧
    encodeQueryRequest (GoVal.mapTo none) = Body.bytesBody emptyObjectBody ∧
    (∀ d : List Char, trimSpace d = [] →
      encodeQueryRequest (GoVal.str d) = Body.bytesBody emptyObjectBody ∧
      encodeQueryRequest (GoVal.bytes d) = Body.bytesBody emptyObjectBody ∧
      encodeQueryRequest (GoVal.rawMsg d) = Body.bytesBody emptyObjectBody) := by
  refine ⟨rfl, rfl, rfl, rfl, ?_⟩
  intro d hd
  refine ⟨?_, ?_, ?_⟩ <;> simp [encodeQueryRequest, encodeJSONObject, hd]

/-- C7 witness: a whitespace-only string body encodes to `{}`. -/
theorem C7_query_absent_empty_object_witness :
    encodeQueryRequest (GoVal.str (" ".toList)) = Body.bytesBody emptyObjectBody ∧
    encodeQueryRequest (GoVal.bytes (" ".toList)) = Body.bytesBody emptyObjectBody ∧
    encodeQueryRequest (GoVal.rawMsg (" ".toList)) = Body.bytesBody emptyObjectBody :=
  C7_query_absent_empty_object.2.2.2.2 (" ".toList) (by decide)

/-- C8: `Iterate` fails immediately with the input-contract errors
`nil stream` / `nil iterator callback` when the stream handle or the callback
is absent, returning the stream untouched (no bytes consumed) and the
callback state unchanged. -/
theorem C8_iterate_nil_guards :
    (∀ (T σ : Type) (fn : Option (σ → T → σ × Option GoError)) (init : σ),
      iterate none fn init = (none, init, some GoError.nilStream)) ∧
    (∀ (T σ : Type) (s : JSONStream T) (init : σ),
      iterate (some s) none init = (some s, init, some GoError.nilCallback)) := by
  constructor
  · intro T σ fn init
    rfl
  · intro T σ s init
    rfl

/-- C9 counterexample: when the body is unparsable the message is the
whitespace-TRIMMED body text, not the body text verbatim: the six-byte body
` boom ` yields the message `boom`. -/
theorem C9_counterexample :
    (parseErrorResponse 500 (" boom ".toList) (fun _ => none)).Message
      ≠ " boom ".toList := by
  decide

/-- C9 (amended): the error parser extracts message and description from a
JSON body shaped as an object with an inner error object; when that structure
is absent, unparsable, or carries empty message and description, the raw
response body text, trimmed of surrounding whitespace, is used as the
message. -/
theorem C9_error_parsing :
    (∀ (sc : Nat) (rb : List Char) (um : List Char → Option Json) (j : Json)
        (m d : String),
      0 < (rb.take maxErrorBody).length →
      um (rb.take maxErrorBody) = some j →
      decodeErrorPayload j = some (m, d) → (m ≠ "" ∨ d ≠ "") →
      parseErrorResponse sc rb um = ⟨sc, m.toList, d.toList, rb.take maxErrorBody⟩) ∧
    (∀ (sc : Nat) (rb : List Char) (um : List Char → Option Json),
      um (rb.take maxErrorBody) = none →
      parseErrorResponse sc rb um =
        ⟨sc, trimSpace (rb.take maxErrorBody), [], rb.take maxErrorBody⟩) ∧
    (∀ (sc : Nat) (rb : List Char) (um : List Char → Option Json) (j : Json),
      um (rb.take maxErrorBody) = some j → decodeErrorPayload j = none →
      parseErrorResponse sc rb um =
        ⟨sc, trimSpace (rb.take maxErrorBody), [], rb.take maxErrorBody⟩) ∧
    (∀ (sc : Nat) (rb : List Char) (um : List Char → Option Json) (j : Json),
      um (rb.take maxErrorBody) = some j → decodeErrorPayload j = some ("", "") →
      parseErrorResponse sc rb um =
        ⟨sc, trimSpace (rb.take maxErrorBody), [], rb.take maxErrorBody⟩) := by
  refine ⟨?_, ?_, ?_, ?_⟩
  · intro sc rb um j m d hlen hum hdec hne
    exact parse_structured sc rb um j m d hlen hum hdec hne
  · intro sc rb um hum
    exact parse_fallback_unparsable sc rb um hum
  · intro sc rb um j hum hdec
    exact parse_fallback_mismatch sc rb um j hum hdec
  · intro sc rb um j hum hdec
    exact parse_fallback_emptyfields sc rb um j hum hdec

/-- C9 witness: a structured error body is decoded into message and
description. -/
theorem C9_error_parsing_witness :
    parseErrorResponse 404 ("x".toList)
        (fun _ => some (Json.jobj [("error",
          Json.jobj [("message", Json.jstr "m1"), ("description", Json.jstr "d1")])]))
      = ⟨404, "m1".toList, "d1".toList, "x".toList.take maxErrorBody⟩ :=
  C9_error_parsing.1 404 ("x".toList)
    (fun _ => some (Json.jobj [("error",
      Json.jobj [("message", Json.jstr "m1"), ("description", Json.jstr "d1")])]))
    (Json.jobj [("error",
      Json.jobj [("message", Json.jstr "m1"), ("description", Json.jstr "d1")])])
    "m1" "d1" (by decide) rfl rfl (Or.inl (by decide))

/-- C10: the parser reads at most `2^20` bytes of the response body, so the
stored body never exceeds 1 MiB, and in every branch that derives the message
from the raw body — the body is unparsable, it parses but has the wrong
shape, or it parses with empty message and description — the message never
exceeds 1 MiB either. -/
theorem C10_error_body_bounded (sc : Nat) (rb : List Char)
    (um : List Char → Option Json) :
    (parseErrorResponse sc rb um).Body.length ≤ maxErrorBody ∧
    (um (rb.take maxErrorBody) = none →
      (parseErrorResponse sc rb um).Message.length ≤ maxErrorBody) ∧
    (∀ j : Json, um (rb.take maxErrorBody) = some j →
      decodeErrorPayload j = none →
      (parseErrorResponse sc rb um).Message.length ≤ maxErrorBody) ∧
    (∀ j : Json, um (rb.take maxErrorBody) = some j →
      decodeErrorPayload j = some ("", "") →
      (parseErrorResponse sc rb um).Message.length ≤ maxErrorBody) := by
  have hbound : (trimSpace (rb.take maxErrorBody)).length ≤ maxErrorBody :=
    le_trans (trimSpace_length_le _)
      (by rw [List.length_take]; exact Nat.min_le_left _ _)
  refine ⟨?_, ?_, ?_, ?_⟩
  · rw [parse_body_eq, List.length_take]
    exact Nat.min_le_left _ _
  · intro hum
    rw [parse_fallback_unparsable sc rb um hum]
    exact hbound
  · intro j hum hdec
    rw [parse_fallback_mismatch sc rb um j hum hdec]
    exact hbound
  · intro j hum hdec
    rw [parse_fallback_emptyfields sc rb um j hum hdec]
    exact hbound

/-- C10 witness: a body one byte longer than the limit is truncated, and each
raw-body fallback branch (unparsable body, wrong-shape JSON, empty error
fields) is exercised at a concrete input. -/
theorem C10_error_body_bounded_witness :
    (parseErrorResponse 500 (List.replicate (maxErrorBody + 1) 'a')
        (fun _ => none)).Body.length ≤ maxErrorBody ∧
    (parseErrorResponse 500 (List.replicate (maxErrorBody + 1) 'a')
        (fun _ => none)).Message.length ≤ maxErrorBody ∧
    (parseErrorResponse 500 ("7".toList)
        (fun _ => some (Json.jnum 7))).Message.length ≤ maxErrorBody ∧
    (parseErrorResponse 500 ("e".toList)
        (fun _ => some (Json.jobj []))).Message.length ≤ maxErrorBody :=
  ⟨(C10_error_body_bounded 500 (List.replicate (maxErrorBody + 1) 'a')
      (fun _ => none)).1,
    (C10_error_body_bounded 500 (List.replicate (maxErrorBody + 1) 'a')
      (fun _ => none)).2.1 rfl,
    (C10_error_body_bounded 500 ("7".toList)
      (fun _ => some (Json.jnum 7))).2.2.1 (Json.jnum 7) rfl rfl,
    (C10_error_body_bounded 500 ("e".toList)
      (fun _ => some (Json.jobj []))).2.2.2 (Json.jobj []) rfl rfl⟩

end InceptionDB
